import Mathlib

/-!
Shallow embedding of the committee-derivation helpers
(`EpochCommitteeCount`, `ComputeCommittee`, `VerifyBitfield`,
`AttestingIndices`, `CommitteeAssignment`, the committee cache) and of the
initial-sync service (`Status`, `Syncing`, `Resync`, `NewService`).

Machine integers (`uint64`, `int`) are modelled as `Nat`; all the
arithmetic performed by these functions stays far below `2 ^ 64` whenever
the inputs do, so no wrap-around modelling is required.  Go functions that
return `(value, error)` pairs are modelled with `Except`: the convention in
the source is that the value accompanying a non-nil error is a zero value
(nil or empty slice), so the error constructor carries no payload list.  A
Go runtime panic (out-of-range indexing, modulo by zero) is modelled as a
distinguished error outcome.

External collaborators that are not part of this repository excerpt
(`utils.PermutedIndex`, the seed, Go's `sort.Slice`) are taken as
parameters or modelled from the spec, as marked on each definition.
-/

namespace Prysm

/-- EpochCommitteeCount returns the number of crosslink committees of an
epoch, as a function of the active validator count and of the three
configuration parameters it reads (`ShardCount`, `SlotsPerEpoch`,
`TargetCommitteeSize`). -/
def EpochCommitteeCount (activeValidatorCount shardCount slotsPerEpoch targetCommitteeSize : Nat) : Nat :=
  let minCommitteePerSlot := 1
  let committeeSizesPerSlot :=
    if shardCount / slotsPerEpoch > minCommitteePerSlot then
      shardCount / slotsPerEpoch
    else
      minCommitteePerSlot
  let currCommitteePerSlot := activeValidatorCount / slotsPerEpoch / targetCommitteeSize
  if currCommitteePerSlot > committeeSizesPerSlot then
    committeeSizesPerSlot * slotsPerEpoch
  else if currCommitteePerSlot < 1 then
    minCommitteePerSlot * slotsPerEpoch
  else
    currCommitteePerSlot * slotsPerEpoch

/-- Modelled from the spec: `utils.SplitOffset` is not part of the excerpt;
the spec defines the split-point function as
`splitOffset(N, chunks, i) = floor(N * i / chunks)`. -/
def SplitOffset (listSize chunks index : Nat) : Nat :=
  listSize * index / chunks

/-- Loop body of `ComputeCommittee`: walks the positions of the committee's
range in order; a failing `PermutedIndex` aborts with an error (the Go code
returns an empty slice together with the error), and a successful permuted
index is used to index into `validatorIndices` (a Go out-of-range index
would panic, modelled as a distinguished error). -/
def computeCommitteeLoop {σ : Type}
    (permutedIndexFn : Nat → Nat → σ → Except String Nat)
    (validatorIndices : List Nat) (seed : σ) (validatorCount : Nat) :
    List Nat → Except String (List Nat)
  | [] => Except.ok []
  | i :: rest =>
    match permutedIndexFn i validatorCount seed with
    | Except.error e =>
        Except.error ("could not get permuted index at index " ++ toString i ++ ": " ++ e)
    | Except.ok permutedIndex =>
        match validatorIndices[permutedIndex]? with
        | none => Except.error "panic: runtime error: index out of range"
        | some v =>
            match computeCommitteeLoop permutedIndexFn validatorIndices seed validatorCount rest with
            | Except.error e => Except.error e
            | Except.ok vs => Except.ok (v :: vs)

/-- ComputeCommittee returns the requested shuffled committee out of the
total committees, using validator indices and seed.  `utils.PermutedIndex`
is an external collaborator and is taken as the parameter
`permutedIndexFn`. -/
def ComputeCommittee {σ : Type}
    (permutedIndexFn : Nat → Nat → σ → Except String Nat)
    (validatorIndices : List Nat) (seed : σ) (index totalCommittees : Nat) :
    Except String (List Nat) :=
  let validatorCount := validatorIndices.length
  let startOffset := SplitOffset validatorCount totalCommittees index
  let endOffset := SplitOffset validatorCount totalCommittees (index + 1)
  computeCommitteeLoop permutedIndexFn validatorIndices seed validatorCount
    (List.range' startOffset (endOffset - startOffset))

/-- Modelled from the spec: `mathutil.CeilDiv8` is not part of the excerpt;
the spec states the expected bitfield length is `ceil(committeeSize / 8)`. -/
def CeilDiv8 (n : Nat) : Nat :=
  (n + 7) / 8

/-- Modelled from the spec: `bitutil.CheckBit` is not part of the excerpt;
the spec describes the bitfield as a bitmask over committee positions, so
bit `i` lives in byte `i / 8`; an index beyond the byte slice is an
error. -/
def CheckBit (bitfield : List Nat) (idx : Nat) : Except String Bool :=
  match bitfield[idx / 8]? with
  | some b => Except.ok (b.testBit (idx % 8))
  | none => Except.error "index out of range for bitfield"

/-- Loop of `VerifyBitfield` over the list of scanned bit positions
(`committeeSize, committeeSize+1, ..., bitLength-1` in the Go for-loop): a
`CheckBit` error propagates, a set bit yields `ok false`, and reaching the
end yields `ok true`. -/
def verifyBitfieldLoop (bitfield : List Nat) : List Nat → Except String Bool
  | [] => Except.ok true
  | i :: rest =>
    match CheckBit bitfield i with
    | Except.error e => Except.error e
    | Except.ok true => Except.ok false
    | Except.ok false => verifyBitfieldLoop bitfield rest

/-- VerifyBitfield validates a bitfield with a given committee size: a
length mismatch is an error, a set padding bit yields `ok false`, otherwise
`ok true`. -/
def VerifyBitfield (bitfield : List Nat) (committeeSize : Nat) : Except String Bool :=
  if bitfield.length ≠ CeilDiv8 committeeSize then
    Except.error "wanted participants bitfield length mismatch"
  else
    verifyBitfieldLoop bitfield
      (List.range' committeeSize (bitfield.length * 8 - committeeSize))

/-- Modelled from the spec: Go's `sort.Slice` with comparator
`committee[i] < committee[j]` sorts the slice ascending by value; an
insertion step of that sort. -/
def insertAscending (a : Nat) : List Nat → List Nat
  | [] => [a]
  | b :: rest => if a ≤ b then a :: b :: rest else b :: insertAscending a rest

/-- Modelled from the spec: ascending-by-value sort standing in for Go's
`sort.Slice` call in `AttestingIndices`. -/
def sortAscending : List Nat → List Nat
  | [] => []
  | a :: rest => insertAscending a (sortAscending rest)

/-- AttestingIndices returns the attesting participants indices.  The
committee lookup (`CrosslinkCommitteeAtEpoch`, which depends on external
seed/start-shard collaborators) is taken as the parameter
`committeeLookup`, holding its result for the attestation data's target
epoch and shard.  Note that the Go body sorts the whole committee and
returns it without filtering by the bitfield. -/
def AttestingIndices (committeeLookup : Except String (List Nat)) (bitfield : List Nat) :
    Except String (List Nat) :=
  match committeeLookup with
  | Except.error e => Except.error ("could not get committee: " ++ e)
  | Except.ok committee =>
      match VerifyBitfield bitfield committee.length with
      | Except.error e => Except.error e
      | Except.ok false => Except.error "bitfield is unable to be verified"
      | Except.ok true => Except.ok (sortAscending committee)

/-- CommitteeInfo mirrors `cache.CommitteeInfo`: a committee's validator
indices together with its shard. -/
structure CommitteeInfo where
  committee : List Nat
  shard : Nat
deriving DecidableEq, Repr

/-- CommitteesInSlot mirrors `cache.CommitteesInSlot`: the committees
recorded for one slot. -/
structure CommitteesInSlot where
  slot : Nat
  committees : List CommitteeInfo
deriving DecidableEq, Repr

/-- CrosslinkCommittee defines the validator committee of slot and shard
combinations. -/
structure CrosslinkCommittee where
  committee : List Nat
  shard : Nat
deriving DecidableEq, Repr

/-- CommitteesCache models the committee cache as a map from slot to the
record cached for that slot (absent when the slot was never cached). -/
def CommitteesCache : Type := Nat → Option CommitteesInSlot

/-- Modelled from the spec: `cache.NewCommitteesCache` builds an empty
cache; no slot has a record. -/
def NewCommitteesCache : CommitteesCache := fun _ => none

/-- RestartCommitteeCache restarts the committee cache from scratch: the
process-wide cache becomes the empty cache. -/
def RestartCommitteeCache : CommitteesCache := NewCommitteesCache

/-- Modelled from the spec: `CommitteesInfoBySlot` returns the cached
record for a slot, absence being a valid non-error outcome (the error case
exists only for internal corruption, which a map model cannot exhibit). -/
def CommitteesInfoBySlot (cache : CommitteesCache) (slot : Nat) : Option CommitteesInSlot :=
  cache slot

/-- Modelled from the spec: `AddCommittees` stores a record under its slot
(idempotent overwrite). -/
def AddCommittees (cache : CommitteesCache) (record : CommitteesInSlot) : CommitteesCache :=
  fun s => if s = record.slot then some record else cache s

/-- ToCommitteeCache converts crosslink committee objects into the cache
record format. -/
def ToCommitteeCache (slot : Nat) (crosslinkCommittees : List CrosslinkCommittee) :
    CommitteesInSlot :=
  { slot := slot
    committees := crosslinkCommittees.map (fun c => { committee := c.committee, shard := c.shard }) }

/-- AssignmentError distinguishes the failure modes of
`CommitteeAssignment`: the epoch bound check, the typed gRPC `NotFound`
error, and a Go runtime panic (indexing an empty first committee). -/
inductive AssignmentError where
  | epochOutOfBounds : AssignmentError
  | notFound : AssignmentError
  | panicked : AssignmentError
deriving DecidableEq, Repr

/-- Modelled from the spec: `StartSlot(epoch)` is not part of the excerpt;
the epoch's slots are `epoch * slotsPerEpoch, ...` (the scan covers every
slot of the target epoch). -/
def StartSlot (slotsPerEpoch epoch : Nat) : Nat :=
  epoch * slotsPerEpoch

/-- Per-slot step of `CommitteeAssignment`'s scan: the Go double loop
appends a committee to `selectedCommittees` when it contains
`validatorIndex` and returns as soon as that list is non-empty, which
selects the first committee of the slot containing the validator.  On a
match the proposer flag reads the slot's first committee at position
`slot % len(firstCommittee)` (an empty first committee would make the Go
code panic). -/
def slotAssignment (record : CommitteesInSlot) (slot validatorIndex : Nat) :
    Option (Except AssignmentError (List Nat × Nat × Nat × Bool)) :=
  match record.committees.find? (fun c => c.committee.contains validatorIndex) with
  | none => none
  | some selected =>
      match record.committees with
      | [] => some (Except.error AssignmentError.panicked)
      | firstCommitteeInfo :: _ =>
          let firstCommitteeAtSlot := firstCommitteeInfo.committee
          if firstCommitteeAtSlot.length = 0 then
            some (Except.error AssignmentError.panicked)
          else
            some (Except.ok
              (selected.committee, selected.shard, slot,
                firstCommitteeAtSlot.getD (slot % firstCommitteeAtSlot.length) 0 == validatorIndex))

/-- Slot loop of `CommitteeAssignment`: for each slot of the epoch, look the
slot up in the cache, insert an empty placeholder record on a miss, and
scan the (possibly empty) committees of the record; the cache threads
through the loop. -/
def committeeAssignmentLoop (validatorIndex : Nat) :
    List Nat → CommitteesCache →
    Except AssignmentError (List Nat × Nat × Nat × Bool) × CommitteesCache
  | [], cache => (Except.error AssignmentError.notFound, cache)
  | slot :: rest, cache =>
      let lookup := CommitteesInfoBySlot cache slot
      let record := match lookup with
        | some r => r
        | none => ToCommitteeCache slot []
      let cache' := match lookup with
        | some _ => cache
        | none => AddCommittees cache (ToCommitteeCache slot [])
      match slotAssignment record slot validatorIndex with
      | some result => (result, cache')
      | none => committeeAssignmentLoop validatorIndex rest cache'

/-- CommitteeAssignment queries the committee assignment of a validator:
out-of-bounds epochs fail, otherwise every slot of the wanted epoch is
scanned in ascending order and a validator found in no committee yields the
typed `NotFound` error.  `PrevEpoch`/`NextEpoch` are helpers outside the
excerpt, taken as parameters; `registryChange` is unused by the body. -/
def CommitteeAssignment (slotsPerEpoch prevEpoch nextEpoch : Nat)
    (cache : CommitteesCache) (slot validatorIndex : Nat) (registryChange : Bool) :
    Except AssignmentError (List Nat × Nat × Nat × Bool) × CommitteesCache :=
  let _ := registryChange
  let wantedEpoch := slot / slotsPerEpoch
  if wantedEpoch < prevEpoch ∨ wantedEpoch > nextEpoch then
    (Except.error AssignmentError.epochOutOfBounds, cache)
  else
    let startSlot := StartSlot slotsPerEpoch wantedEpoch
    committeeAssignmentLoop validatorIndex (List.range' startSlot slotsPerEpoch) cache

/-- Service models the initial-sync service state: the two status flags and
the last processed slot (external collaborators — chain, p2p, notifier —
are not part of the state the claims concern). -/
structure Service where
  synced : Bool
  chainStarted : Bool
  lastProcessedSlot : Nat
deriving DecidableEq, Repr

/-- NewService configures the initial sync service; the Go constructor
leaves `synced`, `chainStarted` and `lastProcessedSlot` at their zero
values. -/
def NewService : Service :=
  { synced := false, chainStarted := false, lastProcessedSlot := 0 }

/-- Status of initial sync: a non-nil error exactly when the chain has
started and the service is not synced. -/
def Status (s : Service) : Option String :=
  if !s.synced && s.chainStarted then some "syncing" else none

/-- Syncing returns true if initial sync is still running. -/
def Syncing (s : Service) : Bool :=
  !s.synced

/-- State of the service while a resync run is in flight: `Resync` sets
`synced` to false before re-running peer-wait and round-robin sync. -/
def resyncRunState (s : Service) : Service :=
  { s with synced := false }

/-- Resync re-derives the genesis time from the head state (a failure to
retrieve it is the only error return), marks the node unsynced, re-runs the
round-robin sync step (whose error is logged, not returned) and marks the
node synced again on completion.  The head-state lookup and the round-robin
step are external collaborators, taken as parameters: `headState` is the
retrieved head state's genesis time (absent on lookup failure), and
`roundRobin` is invoked on the running state and genesis time. -/
def Resync (s : Service) (headState : Option Nat)
    (roundRobin : Service → Nat → Option String) : Service × Option String :=
  match headState with
  | none => (s, some "could not retrieve head state")
  | some genesisTime =>
      let running := resyncRunState s
      match roundRobin running genesisTime with
      | some _ => ({ running with synced := true }, none)
      | none => ({ running with synced := true }, none)

/-- C7: for every service state, `Status()` returns a non-nil error exactly
when `chainStarted` is true and `synced` is false; in every other
combination of the two flags it returns nil. -/
theorem status_nonNil_iff_started_and_unsynced (s : Service) :
    (Status s).isSome = (s.chainStarted && !s.synced) := by
  obtain ⟨sy, st, lps⟩ := s
  cases sy <;> cases st <;> rfl

/-- C10: a freshly constructed service has `synced = false` and
`chainStarted = false`, so `Syncing()` reports true while `Status()`
simultaneously reports healthy. -/
theorem newService_syncing_but_healthy :
    NewService.synced = false ∧ NewService.chainStarted = false ∧
    Syncing NewService = true ∧ Status NewService = none :=
  ⟨rfl, rfl, rfl, rfl⟩

/-- C8: when the head state is unavailable, `Resync` returns a non-nil
error and leaves the service (in particular `synced`) unchanged; when the
head state is available, the round-robin step runs on a state whose
`synced` flag is false, and `Resync` unconditionally sets `synced` back to
true and returns nil, even when the round-robin step fails. -/
theorem resync_spec (s : Service) (genesisTime : Nat)
    (roundRobin : Service → Nat → Option String) :
    Resync s none roundRobin = (s, some "could not retrieve head state") ∧
    (resyncRunState s).synced = false ∧
    Resync s (some genesisTime) roundRobin = ({ s with synced := true }, none) := by
  refine ⟨rfl, rfl, ?_⟩
  have h : ∀ o : Option String,
      (match o with
        | some _ => (({ resyncRunState s with synced := true } : Service), (none : Option String))
        | none => ({ resyncRunState s with synced := true }, none))
      = (({ s with synced := true } : Service), (none : Option String)) := by
    intro o
    cases o <;> rfl
  exact h (roundRobin (resyncRunState s) genesisTime)

/-- C3: `EpochCommitteeCount` equals
`clamp(active/slots/target, 1, max(1, shards/slots)) * slots` under integer
floor division; hence the result is a positive multiple of `slotsPerEpoch`
and at least `slotsPerEpoch`, and the concrete example from the spec
evaluates to 64. -/
theorem epochCommitteeCount_clamp_formula
    (activeValidatorCount shardCount slotsPerEpoch targetCommitteeSize : Nat)
    (hsl : 0 < slotsPerEpoch) (ht : 0 < targetCommitteeSize) :
    EpochCommitteeCount activeValidatorCount shardCount slotsPerEpoch targetCommitteeSize
      = max 1 (min (activeValidatorCount / slotsPerEpoch / targetCommitteeSize)
          (max 1 (shardCount / slotsPerEpoch))) * slotsPerEpoch ∧
    slotsPerEpoch ∣
      EpochCommitteeCount activeValidatorCount shardCount slotsPerEpoch targetCommitteeSize ∧
    slotsPerEpoch ≤
      EpochCommitteeCount activeValidatorCount shardCount slotsPerEpoch targetCommitteeSize ∧
    0 < EpochCommitteeCount activeValidatorCount shardCount slotsPerEpoch targetCommitteeSize ∧
    EpochCommitteeCount 640 64 64 128 = 64 := by
  have hform :
      EpochCommitteeCount activeValidatorCount shardCount slotsPerEpoch targetCommitteeSize
        = max 1 (min (activeValidatorCount / slotsPerEpoch / targetCommitteeSize)
            (max 1 (shardCount / slotsPerEpoch))) * slotsPerEpoch := by
    have hbranch : ∀ c q : Nat,
        max 1 (min c (max 1 q))
          = if c > (if q > 1 then q else 1) then (if q > 1 then q else 1)
            else if c < 1 then 1 else c := by
      intro c q
      split_ifs <;> omega
    simp only [EpochCommitteeCount]
    rw [hbranch]
    split_ifs <;> simp
  have hone : 1 ≤ max 1 (min (activeValidatorCount / slotsPerEpoch / targetCommitteeSize)
      (max 1 (shardCount / slotsPerEpoch))) := Nat.le_max_left _ _
  refine ⟨hform, ⟨_, by rw [hform, Nat.mul_comm]⟩, ?_, ?_, by decide⟩
  · calc slotsPerEpoch = 1 * slotsPerEpoch := (Nat.one_mul _).symm
      _ ≤ _ := by rw [hform]; exact Nat.mul_le_mul_right _ hone
  · calc 0 < slotsPerEpoch := hsl
      _ ≤ _ := by
        calc slotsPerEpoch = 1 * slotsPerEpoch := (Nat.one_mul _).symm
          _ ≤ _ := by rw [hform]; exact Nat.mul_le_mul_right _ hone

/-- Witness for C3 at the spec's concrete example. -/
theorem epochCommitteeCount_clamp_formula_witness :
    EpochCommitteeCount 640 64 64 128
      = max 1 (min (640 / 64 / 128) (max 1 (64 / 64))) * 64 :=
  (epochCommitteeCount_clamp_formula 640 64 64 128 (by decide) (by decide)).1

/-- C1 (code bug): with a committee lookup yielding the committee `[5, 3]`
(so committee size 2) and a well-formed bitfield whose bit at committee
position 0 is set while position 1 is clear, `AttestingIndices` returns the
whole committee sorted (`[3, 5]`) instead of only the members at set-bit
positions (`[5]`): the Go body never filters by the bitfield, contradicting
the pseudocode in its own doc comment. -/
theorem attestingIndices_returns_unset_bit_members :
    VerifyBitfield [1] 2 = Except.ok true ∧
    AttestingIndices (Except.ok [5, 3]) [1] = Except.ok [3, 5] :=
  ⟨rfl, rfl⟩

/-- CheckBit succeeds on every bit position inside the bitfield's bytes. -/
theorem checkBit_total (bitfield : List Nat) (i : Nat) (h : i < bitfield.length * 8) :
    ∃ b, CheckBit bitfield i = Except.ok b := by
  have hdiv : i / 8 < bitfield.length := Nat.div_lt_of_lt_mul (by omega)
  refine ⟨(bitfield.get ⟨i / 8, hdiv⟩).testBit (i % 8), ?_⟩
  simp [CheckBit, List.getElem?_eq_getElem hdiv]

/-- Scanning positions that all read as zero yields `ok true`. -/
theorem verifyBitfieldLoop_all_zero (bitfield : List Nat) (l : List Nat)
    (h : ∀ i ∈ l, CheckBit bitfield i = Except.ok false) :
    verifyBitfieldLoop bitfield l = Except.ok true := by
  induction l with
  | nil => rfl
  | cons j rest ih =>
    have hj := h j (List.mem_cons_self _ _)
    simp only [verifyBitfieldLoop, hj]
    exact ih (fun k hk => h k (List.mem_cons_of_mem _ hk))

/-- Scanning positions that all read successfully, at least one of which
reads as one, yields `ok false`. -/
theorem verifyBitfieldLoop_found (bitfield : List Nat) (l : List Nat)
    (hok : ∀ i ∈ l, ∃ b, CheckBit bitfield i = Except.ok b)
    (hset : ∃ i, i ∈ l ∧ CheckBit bitfield i = Except.ok true) :
    verifyBitfieldLoop bitfield l = Except.ok false := by
  induction l with
  | nil => rcases hset with ⟨i, hi, _⟩; cases hi
  | cons j rest ih =>
    rcases hok j (List.mem_cons_self _ _) with ⟨b, hb⟩
    cases b
    · rcases hset with ⟨i, hi, hit⟩
      rcases List.mem_cons.mp hi with rfl | hi'
      · rw [hb] at hit
        simp at hit
      · simp only [verifyBitfieldLoop, hb]
        exact ih (fun k hk => hok k (List.mem_cons_of_mem _ hk)) ⟨i, hi', hit⟩
    · simp only [verifyBitfieldLoop, hb]

/-- C4: `VerifyBitfield` fails with an error exactly on a length mismatch;
with the correct length it returns `ok false` when some padding bit in
`[committeeSize, 8 * len)` is set and `ok true` when every padding bit is
zero. -/
theorem verifyBitfield_spec (bitfield : List Nat) (committeeSize : Nat) :
    (bitfield.length ≠ CeilDiv8 committeeSize →
      VerifyBitfield bitfield committeeSize
        = Except.error "wanted participants bitfield length mismatch") ∧
    (bitfield.length = CeilDiv8 committeeSize →
      ((∃ i, committeeSize ≤ i ∧ i < bitfield.length * 8 ∧
          CheckBit bitfield i = Except.ok true) →
        VerifyBitfield bitfield committeeSize = Except.ok false) ∧
      ((∀ i, committeeSize ≤ i → i < bitfield.length * 8 →
          CheckBit bitfield i = Except.ok false) →
        VerifyBitfield bitfield committeeSize = Except.ok true)) := by
  constructor
  · intro h
    simp only [VerifyBitfield, if_pos h]
  · intro hlen
    have hcond : ¬ (bitfield.length ≠ CeilDiv8 committeeSize) := by simpa using hlen
    have hbound : ∀ i ∈ List.range' committeeSize (bitfield.length * 8 - committeeSize),
        committeeSize ≤ i ∧ i < bitfield.length * 8 := by
      intro i hi
      rcases List.mem_range'.mp hi with ⟨k, hk, hik⟩
      omega
    constructor
    · rintro ⟨i, h1, h2, h3⟩
      have hmem : i ∈ List.range' committeeSize (bitfield.length * 8 - committeeSize) :=
        List.mem_range'.mpr ⟨i - committeeSize, by omega, by omega⟩
      simp only [VerifyBitfield, if_neg hcond]
      exact verifyBitfieldLoop_found _ _
        (fun j hj => checkBit_total _ _ (hbound j hj).2) ⟨i, hmem, h3⟩
    · intro hzero
      simp only [VerifyBitfield, if_neg hcond]
      exact verifyBitfieldLoop_all_zero _ _
        (fun j hj => hzero j (hbound j hj).1 (hbound j hj).2)

/-- Witness for C4: the byte `0b100` with committee size 2 has padding bit 2
set and is rejected as `ok false`; the byte `0b001` with committee size 2
has all padding bits zero and verifies as `ok true`; a wrong-length
bitfield errors. -/
theorem verifyBitfield_spec_witness :
    VerifyBitfield [4] 2 = Except.ok false ∧
    VerifyBitfield [1] 2 = Except.ok true ∧
    VerifyBitfield [1, 0] 2 = Except.error "wanted participants bitfield length mismatch" :=
  ⟨((verifyBitfield_spec [4] 2).2 (by decide)).1 ⟨2, by decide, by decide, by rfl⟩,
   ((verifyBitfield_spec [1] 2).2 (by decide)).2
     (by intro i h1 h2; simp only [List.length_cons, List.length_nil] at h2
         interval_cases i <;> rfl),
   (verifyBitfield_spec [1, 0] 2).1 (by decide)⟩

/-- A successful run of the committee loop means the permutation primitive
succeeded at every scanned position. -/
theorem computeCommitteeLoop_ok_of_mem {σ : Type}
    (pIdx : Nat → Nat → σ → Except String Nat) (indices : List Nat) (seed : σ)
    (validatorCount : Nat) (l : List Nat) (vs : List Nat)
    (h : computeCommitteeLoop pIdx indices seed validatorCount l = Except.ok vs) :
    ∀ i ∈ l, ∃ q, pIdx i validatorCount seed = Except.ok q := by
  induction l generalizing vs with
  | nil => intro i hi; cases hi
  | cons j rest ih =>
    intro i hi
    rcases List.mem_cons.mp hi with rfl | hi'
    · cases hpi : pIdx i validatorCount seed with
      | error e => simp only [computeCommitteeLoop, hpi] at h; exact Except.noConfusion h
      | ok q => exact ⟨q, rfl⟩
    · cases hpj : pIdx j validatorCount seed with
      | error e => simp only [computeCommitteeLoop, hpj] at h; exact Except.noConfusion h
      | ok q =>
        simp only [computeCommitteeLoop, hpj] at h
        cases hq : indices[q]? with
        | none => simp only [hq] at h; exact Except.noConfusion h
        | some v =>
          simp only [hq] at h
          cases hrest : computeCommitteeLoop pIdx indices seed validatorCount rest with
          | error e => simp only [hrest] at h; exact Except.noConfusion h
          | ok ws => exact ih ws hrest i hi'

/-- C6: if the permutation primitive fails at any position of the
committee's range, `ComputeCommittee` returns an error (the Go code pairs
it with an empty slice) rather than a partially-filled committee. -/
theorem computeCommittee_perm_failure_aborts {σ : Type}
    (pIdx : Nat → Nat → σ → Except String Nat)
    (validatorIndices : List Nat) (seed : σ) (index totalCommittees p : Nat) (e : String)
    (hp1 : SplitOffset validatorIndices.length totalCommittees index ≤ p)
    (hp2 : p < SplitOffset validatorIndices.length totalCommittees (index + 1))
    (hfail : pIdx p validatorIndices.length seed = Except.error e) :
    ∃ msg, ComputeCommittee pIdx validatorIndices seed index totalCommittees
      = Except.error msg := by
  cases hres : ComputeCommittee pIdx validatorIndices seed index totalCommittees with
  | error msg => exact ⟨msg, rfl⟩
  | ok vs =>
    exfalso
    have hloop : computeCommitteeLoop pIdx validatorIndices seed validatorIndices.length
        (List.range' (SplitOffset validatorIndices.length totalCommittees index)
          (SplitOffset validatorIndices.length totalCommittees (index + 1)
            - SplitOffset validatorIndices.length totalCommittees index))
        = Except.ok vs := hres
    have hmem : p ∈ List.range' (SplitOffset validatorIndices.length totalCommittees index)
        (SplitOffset validatorIndices.length totalCommittees (index + 1)
          - SplitOffset validatorIndices.length totalCommittees index) :=
      List.mem_range'.mpr
        ⟨p - SplitOffset validatorIndices.length totalCommittees index, by omega, by omega⟩
    rcases computeCommitteeLoop_ok_of_mem pIdx validatorIndices seed
        validatorIndices.length _ vs hloop p hmem with ⟨q, hq⟩
    rw [hfail] at hq
    exact Except.noConfusion hq

/-- Witness for C6: an always-failing permutation primitive makes
`ComputeCommittee` return an error on the full range `[0, 3)`. -/
theorem computeCommittee_perm_failure_aborts_witness :
    ∃ msg, ComputeCommittee (fun _ _ _ => Except.error "boom") [10, 11, 12] () 0 1
      = Except.error msg :=
  computeCommittee_perm_failure_aborts (fun _ _ _ => Except.error "boom")
    [10, 11, 12] () 0 1 0 "boom" (by decide) (by decide) rfl

/-- When the permutation primitive succeeds (with value `perm p`, in range)
at every scanned position, the committee loop returns the mapped list. -/
theorem computeCommitteeLoop_map {σ : Type}
    (pIdx : Nat → Nat → σ → Except String Nat) (indices : List Nat) (seed : σ)
    (perm : Nat → Nat)
    (hok : ∀ p, p < indices.length → pIdx p indices.length seed = Except.ok (perm p))
    (hlt : ∀ p, p < indices.length → perm p < indices.length) :
    ∀ l : List Nat, (∀ p ∈ l, p < indices.length) →
      computeCommitteeLoop pIdx indices seed indices.length l
        = Except.ok (l.map (fun p => indices.getD (perm p) 0)) := by
  intro l
  induction l with
  | nil => intro _; rfl
  | cons j rest ih =>
    intro hmem
    have hj : j < indices.length := hmem j (List.mem_cons_self _ _)
    have hjlt : perm j < indices.length := hlt j hj
    have hidx : indices[perm j]? = some (indices.getD (perm j) 0) := by
      rw [List.getElem?_eq_getElem hjlt]
      simp [List.getD_eq_getElem?_getD, List.getElem?_eq_getElem hjlt]
    simp only [computeCommitteeLoop, hok j hj, hidx,
      ih (fun p hp => hmem p (List.mem_cons_of_mem _ hp)), List.map_cons]

/-- The end offset of committee `i < total` never exceeds the validator
count. -/
theorem splitOffset_le_length (n total i : Nat) (htotal : 0 < total) (hi : i < total) :
    SplitOffset n total (i + 1) ≤ n := by
  have h1 : n * (i + 1) ≤ n * total := Nat.mul_le_mul_left _ (by omega)
  calc n * (i + 1) / total ≤ n * total / total := Nat.div_le_div_right h1
    _ = n := Nat.mul_div_cancel _ htotal

/-- Committee `i` of `total` evaluates to the map of the permuted lookup
over its contiguous position range. -/
theorem computeCommittee_eq_map {σ : Type}
    (pIdx : Nat → Nat → σ → Except String Nat) (indices : List Nat) (seed : σ)
    (perm : Nat → Nat) (total i : Nat) (htotal : 0 < total) (hi : i < total)
    (hok : ∀ p, p < indices.length → pIdx p indices.length seed = Except.ok (perm p))
    (hlt : ∀ p, p < indices.length → perm p < indices.length) :
    ComputeCommittee pIdx indices seed i total
      = Except.ok ((List.range' (SplitOffset indices.length total i)
          (SplitOffset indices.length total (i + 1) - SplitOffset indices.length total i)).map
            (fun p => indices.getD (perm p) 0)) := by
  have hmono : SplitOffset indices.length total i ≤ SplitOffset indices.length total (i + 1) :=
    Nat.div_le_div_right (Nat.mul_le_mul_left _ (by omega))
  have hend : SplitOffset indices.length total (i + 1) ≤ indices.length :=
    splitOffset_le_length _ _ _ htotal hi
  apply computeCommitteeLoop_map pIdx indices seed perm hok hlt
  intro p hp
  rcases List.mem_range'.mp hp with ⟨k, hk, hpk⟩
  omega

/-- Contiguous ranges cut by a monotone split function starting at 0 tile
the initial segment of the naturals. -/
theorem range'_tiling (g : Nat → Nat) (hg0 : g 0 = 0)
    (hmono : ∀ i j, i ≤ j → g i ≤ g j) :
    ∀ c : Nat, ((List.range c).map (fun i => List.range' (g i) (g (i + 1) - g i))).flatten
      = List.range' 0 (g c) := by
  intro c
  induction c with
  | zero => simp [hg0]
  | succ c ih =>
    rw [List.range_succ, List.map_append, List.flatten_append]
    simp only [List.map_cons, List.map_nil, List.flatten_cons, List.flatten_nil,
      List.append_nil]
    rw [ih]
    have h1 : g c ≤ g (c + 1) := hmono c (c + 1) (by omega)
    have happ := List.range'_append_1 0 (g c) (g (c + 1) - g c)
    rw [Nat.zero_add] at happ
    rw [happ]
    congr 1
    omega

/-- Mapping a lookup through a bijection of the index range permutes the
original list. -/
theorem map_getD_perm_of_bij (indices : List Nat) (perm : Nat → Nat)
    (hlt : ∀ p, p < indices.length → perm p < indices.length)
    (hinj : ∀ p q, p < indices.length → q < indices.length → perm p = perm q → p = q) :
    ((List.range indices.length).map (fun p => indices.getD (perm p) 0)).Perm indices := by
  let e : Fin indices.length → Fin indices.length := fun k => ⟨perm k.val, hlt k.val k.isLt⟩
  have hinje : Function.Injective e := by
    intro a b hab
    exact Fin.ext (hinj a.val b.val a.isLt b.isLt (congrArg Fin.val hab))
  have hbij : Function.Bijective e := hinje.bijective_of_finite
  let eperm : Equiv.Perm (Fin indices.length) := Equiv.ofBijective e hbij
  have hfr : List.Perm ((List.finRange indices.length).map eperm)
      (List.finRange indices.length) :=
    Equiv.Perm.map_finRange_perm eperm
  have heq : (List.range indices.length).map (fun p => indices.getD (perm p) 0)
      = ((List.finRange indices.length).map eperm).map indices.get := by
    rw [← List.map_coe_finRange indices.length, List.map_map, List.map_map]
    apply List.map_congr_left
    intro k _
    simp [eperm, e, Function.comp, List.getD_eq_getElem?_getD,
      List.getElem?_eq_getElem (hlt k.val k.isLt), List.get_eq_getElem]
  rw [heq]
  have hperm := hfr.map indices.get
  rw [List.finRange_map_get] at hperm
  exact hperm

/-- C2 (amended: the index sequence must additionally be duplicate-free for
the committees to be pairwise disjoint): for a duplicate-free non-empty
index sequence and `totalCommittees > 0`, when the permutation primitive is
a total bijection of `[0, N)` the committees succeed, their concatenation
is a permutation of `indices` (each element appears exactly once across all
committees), and distinct committees are pairwise disjoint. -/
theorem computeCommittee_partition {σ : Type}
    (pIdx : Nat → Nat → σ → Except String Nat) (indices : List Nat) (seed : σ)
    (perm : Nat → Nat) (totalCommittees : Nat)
    (htotal : 0 < totalCommittees)
    (hne : indices ≠ [])
    (hnodup : indices.Nodup)
    (hok : ∀ p, p < indices.length → pIdx p indices.length seed = Except.ok (perm p))
    (hlt : ∀ p, p < indices.length → perm p < indices.length)
    (hinj : ∀ p q, p < indices.length → q < indices.length → perm p = perm q → p = q) :
    ∃ committees : List (List Nat),
      committees.length = totalCommittees ∧
      (∀ i, i < totalCommittees →
        ComputeCommittee pIdx indices seed i totalCommittees
          = Except.ok (committees.getD i [])) ∧
      committees.flatten.Perm indices ∧
      List.Pairwise List.Disjoint committees := by
  have _hne := hne
  refine ⟨(List.range totalCommittees).map
    (fun i => (List.range' (SplitOffset indices.length totalCommittees i)
      (SplitOffset indices.length totalCommittees (i + 1)
        - SplitOffset indices.length totalCommittees i)).map
          (fun p => indices.getD (perm p) 0)), ?_, ?_, ?_, ?_⟩
  case _ => simp
  case _ =>
    intro i hi
    rw [computeCommittee_eq_map pIdx indices seed perm totalCommittees i htotal hi hok hlt]
    simp [List.getD_eq_getElem?_getD, List.getElem?_map, List.getElem?_range hi]
  case _ =>
    have hflat : ((List.range totalCommittees).map
        (fun i => (List.range' (SplitOffset indices.length totalCommittees i)
          (SplitOffset indices.length totalCommittees (i + 1)
            - SplitOffset indices.length totalCommittees i)).map
              (fun p => indices.getD (perm p) 0))).flatten
        = (List.range indices.length).map (fun p => indices.getD (perm p) 0) := by
      have hmapmap : (List.range totalCommittees).map
          (fun i => (List.range' (SplitOffset indices.length totalCommittees i)
            (SplitOffset indices.length totalCommittees (i + 1)
              - SplitOffset indices.length totalCommittees i)).map
                (fun p => indices.getD (perm p) 0))
          = ((List.range totalCommittees).map
              (fun i => List.range' (SplitOffset indices.length totalCommittees i)
                (SplitOffset indices.length totalCommittees (i + 1)
                  - SplitOffset indices.length totalCommittees i))).map
              (List.map (fun p => indices.getD (perm p) 0)) := by
        rw [List.map_map]; rfl
      rw [hmapmap, ← List.map_flatten,
        range'_tiling (SplitOffset indices.length totalCommittees)
          (by simp [SplitOffset])
          (fun i j hij => Nat.div_le_div_right (Nat.mul_le_mul_left _ hij)),
        SplitOffset, Nat.mul_div_cancel _ htotal, ← List.range_eq_range']
    rw [hflat]
    exact map_getD_perm_of_bij indices perm hlt hinj
  case _ =>
    have hflat : ((List.range totalCommittees).map
        (fun i => (List.range' (SplitOffset indices.length totalCommittees i)
          (SplitOffset indices.length totalCommittees (i + 1)
            - SplitOffset indices.length totalCommittees i)).map
              (fun p => indices.getD (perm p) 0))).flatten.Perm indices := by
      have hmapmap : (List.range totalCommittees).map
          (fun i => (List.range' (SplitOffset indices.length totalCommittees i)
            (SplitOffset indices.length totalCommittees (i + 1)
              - SplitOffset indices.length totalCommittees i)).map
                (fun p => indices.getD (perm p) 0))
          = ((List.range totalCommittees).map
              (fun i => List.range' (SplitOffset indices.length totalCommittees i)
                (SplitOffset indices.length totalCommittees (i + 1)
                  - SplitOffset indices.length totalCommittees i))).map
              (List.map (fun p => indices.getD (perm p) 0)) := by
        rw [List.map_map]; rfl
      rw [hmapmap, ← List.map_flatten,
        range'_tiling (SplitOffset indices.length totalCommittees)
          (by simp [SplitOffset])
          (fun i j hij => Nat.div_le_div_right (Nat.mul_le_mul_left _ hij)),
        SplitOffset, Nat.mul_div_cancel _ htotal, ← List.range_eq_range']
      exact map_getD_perm_of_bij indices perm hlt hinj
    have hnd : ((List.range totalCommittees).map
        (fun i => (List.range' (SplitOffset indices.length totalCommittees i)
          (SplitOffset indices.length totalCommittees (i + 1)
            - SplitOffset indices.length totalCommittees i)).map
              (fun p => indices.getD (perm p) 0))).flatten.Nodup :=
      hflat.nodup_iff.mpr hnodup
    exact (List.nodup_flatten.mp hnd).2

/-- Witness for C2's amended theorem: three validators, two committees, the
cyclic shift as permutation primitive. -/
theorem computeCommittee_partition_witness :
    ∃ committees : List (List Nat),
      committees.length = 2 ∧
      (∀ i, i < 2 →
        ComputeCommittee (fun p n _ => Except.ok ((p + 1) % n)) [10, 11, 12] () i 2
          = Except.ok (committees.getD i [])) ∧
      committees.flatten.Perm [10, 11, 12] ∧
      List.Pairwise List.Disjoint committees :=
  computeCommittee_partition (fun p n _ => Except.ok ((p + 1) % n)) [10, 11, 12] ()
    (fun p => (p + 1) % 3) 2 (by decide) (by decide) (by decide)
    (by intro p hp; simp only [List.length_cons, List.length_nil] at hp
        interval_cases p <;> rfl)
    (by intro p hp
        show (p + 1) % 3 < 3
        omega)
    (by intro p q hp hq h
        simp only [List.length_cons, List.length_nil] at hp hq
        have h' : (p + 1) % 3 = (q + 1) % 3 := h
        omega)

/-- C2 (counterexample to the claim as stated): with the duplicated index
sequence `[7, 7]`, two committees, and the identity permutation (a total
bijection of `[0, 2)`), both committees are `[7]`, so the committees for
distinct committee indices are not pairwise disjoint. -/
theorem computeCommittee_partition_counterexample :
    ComputeCommittee (fun p _ _ => Except.ok p) [7, 7] () 0 2 = Except.ok [7] ∧
    ComputeCommittee (fun p _ _ => Except.ok p) [7, 7] () 1 2 = Except.ok [7] ∧
    ¬ List.Disjoint [7] ([7] : List Nat) := by
  refine ⟨rfl, rfl, ?_⟩
  intro h
  exact h (List.mem_cons_self 7 []) (List.mem_cons_self 7 [])

/-- A slot record none of whose committees contains the validator produces
no assignment. -/
theorem slotAssignment_none (record : CommitteesInSlot) (slot v : Nat)
    (h : ∀ c ∈ record.committees, v ∉ c.committee) :
    slotAssignment record slot v = none := by
  have hfind : record.committees.find? (fun c => c.committee.contains v) = none := by
    apply List.find?_eq_none.mpr
    intro c hc
    simpa using h c hc
  unfold slotAssignment
  rw [hfind]

/-- The scan loop of `CommitteeAssignment` ends in the typed `NotFound`
error when no cached record of a scanned slot has a committee containing
the validator (placeholder records inserted on misses are empty, so they
never match). -/
theorem committeeAssignmentLoop_notFound (v : Nat) :
    ∀ (slots : List Nat) (cache : CommitteesCache),
    (∀ s ∈ slots, ∀ r, cache s = some r → ∀ c ∈ r.committees, v ∉ c.committee) →
    (committeeAssignmentLoop v slots cache).1 = Except.error AssignmentError.notFound := by
  intro slots
  induction slots with
  | nil => intro cache _; rfl
  | cons slot rest ih =>
    intro cache hc
    cases hl : cache slot with
    | some r =>
        have hsa : slotAssignment r slot v = none :=
          slotAssignment_none r slot v (hc slot (List.mem_cons_self _ _) r hl)
        simp only [committeeAssignmentLoop, CommitteesInfoBySlot, hl, hsa]
        exact ih cache (fun s hs r' hr' => hc s (List.mem_cons_of_mem _ hs) r' hr')
    | none =>
        have hsa : slotAssignment (ToCommitteeCache slot []) slot v = none := by
          apply slotAssignment_none
          intro c hc'
          simp [ToCommitteeCache] at hc'
        simp only [committeeAssignmentLoop, CommitteesInfoBySlot, hl, hsa]
        apply ih
        intro s hs r' hr' c hcc
        by_cases hss : s = slot
        · subst hss
          have : r' = ToCommitteeCache s [] := by
            simpa [AddCommittees, ToCommitteeCache] using hr'.symm
          subst this
          simp [ToCommitteeCache] at hcc
        · have hcs : cache s = some r' := by
            simpa [AddCommittees, ToCommitteeCache, hss] using hr'
          exact hc s (List.mem_cons_of_mem _ hs) r' hcs c hcc

/-- C5: `CommitteeAssignment` fails with the out-of-bounds error whenever
the target slot's epoch falls strictly below the previous epoch or strictly
above the next epoch, and otherwise fails with the typed `NotFound` error
(distinct from the other failure constructors) whenever the validator
appears in no committee of any cached record of the target epoch's
slots. -/
theorem committeeAssignment_bounds_notFound (slotsPerEpoch prevEpoch nextEpoch : Nat)
    (cache : CommitteesCache) (slot validatorIndex : Nat) (registryChange : Bool) :
    (slot / slotsPerEpoch < prevEpoch ∨ slot / slotsPerEpoch > nextEpoch →
      (CommitteeAssignment slotsPerEpoch prevEpoch nextEpoch cache
        slot validatorIndex registryChange).1
        = Except.error AssignmentError.epochOutOfBounds) ∧
    (prevEpoch ≤ slot / slotsPerEpoch → slot / slotsPerEpoch ≤ nextEpoch →
      (∀ s ∈ List.range' (StartSlot slotsPerEpoch (slot / slotsPerEpoch)) slotsPerEpoch,
        ∀ r, cache s = some r → ∀ c ∈ r.committees, validatorIndex ∉ c.committee) →
      (CommitteeAssignment slotsPerEpoch prevEpoch nextEpoch cache
        slot validatorIndex registryChange).1
        = Except.error AssignmentError.notFound) := by
  constructor
  · intro h
    simp only [CommitteeAssignment, if_pos h]
  · intro h1 h2 hmem
    have hcond : ¬ (slot / slotsPerEpoch < prevEpoch ∨ slot / slotsPerEpoch > nextEpoch) := by
      omega
    simp only [CommitteeAssignment, if_neg hcond]
    exact committeeAssignmentLoop_notFound validatorIndex _ cache hmem

/-- Witness for C5: with two slots per epoch and a fresh cache, slot 0 is
below the bounds `[1, 3]` and errors out of bounds, while slot 5 (epoch 2)
is in bounds and yields the typed `NotFound` error. -/
theorem committeeAssignment_bounds_notFound_witness :
    (CommitteeAssignment 2 1 3 NewCommitteesCache 0 7 false).1
      = Except.error AssignmentError.epochOutOfBounds ∧
    (CommitteeAssignment 2 1 3 NewCommitteesCache 5 7 false).1
      = Except.error AssignmentError.notFound :=
  ⟨(committeeAssignment_bounds_notFound 2 1 3 NewCommitteesCache 0 7 false).1
      (by decide),
   (committeeAssignment_bounds_notFound 2 1 3 NewCommitteesCache 5 7 false).2
      (by decide) (by decide)
      (by intro s hs r hr; exact Option.noConfusion hr)⟩

/-- On slots the cache does not know, the scan loop inserts exactly the
empty placeholder record for every scanned slot and ends in `NotFound`. -/
theorem committeeAssignmentLoop_fresh (v : Nat) :
    ∀ (slots : List Nat), slots.Nodup →
    ∀ (cache : CommitteesCache), (∀ s ∈ slots, cache s = none) →
    (committeeAssignmentLoop v slots cache).1 = Except.error AssignmentError.notFound ∧
    ∀ s, (committeeAssignmentLoop v slots cache).2 s
      = if s ∈ slots then some (ToCommitteeCache s []) else cache s := by
  intro slots
  induction slots with
  | nil =>
      intro _ cache _
      refine ⟨rfl, fun s => ?_⟩
      simp [committeeAssignmentLoop]
  | cons slot rest ih =>
      intro hnd cache hnone
      have hl : cache slot = none := hnone slot (List.mem_cons_self _ _)
      have hsa : slotAssignment (ToCommitteeCache slot []) slot v = none := by
        apply slotAssignment_none
        intro c hc'
        simp [ToCommitteeCache] at hc'
      have hnd' : rest.Nodup := (List.nodup_cons.mp hnd).2
      have hslot : slot ∉ rest := (List.nodup_cons.mp hnd).1
      have hnone' : ∀ s ∈ rest, AddCommittees cache (ToCommitteeCache slot []) s = none := by
        intro s hs
        have hss : s ≠ slot := fun h => hslot (h ▸ hs)
        simpa [AddCommittees, ToCommitteeCache, hss] using hnone s (List.mem_cons_of_mem _ hs)
      have hrec := ih hnd' (AddCommittees cache (ToCommitteeCache slot [])) hnone'
      constructor
      · simp only [committeeAssignmentLoop, CommitteesInfoBySlot, hl, hsa]
        exact hrec.1
      · intro s
        have hstep : (committeeAssignmentLoop v (slot :: rest) cache).2
            = (committeeAssignmentLoop v rest (AddCommittees cache (ToCommitteeCache slot []))).2 := by
          simp only [committeeAssignmentLoop, CommitteesInfoBySlot, hl, hsa]
        rw [hstep, hrec.2 s]
        by_cases hsr : s ∈ rest
        · simp [hsr, List.mem_cons_of_mem _ hsr]
        · by_cases hss : s = slot
          · subst hss
            simp [hsr, AddCommittees, ToCommitteeCache]
          · simp [hsr, hss, AddCommittees, ToCommitteeCache]

/-- C9: immediately after a cache restart (so the cache holds no record for
any slot), an in-bounds `CommitteeAssignment` query fails with the typed
`NotFound` error for every validator index, and afterwards every slot of
the target epoch — and no other slot — holds the empty placeholder record:
no committee computation happens on a cache miss. -/
theorem committeeAssignment_fresh_cache_placeholders
    (slotsPerEpoch prevEpoch nextEpoch slot validatorIndex : Nat) (registryChange : Bool)
    (h1 : prevEpoch ≤ slot / slotsPerEpoch) (h2 : slot / slotsPerEpoch ≤ nextEpoch) :
    (CommitteeAssignment slotsPerEpoch prevEpoch nextEpoch RestartCommitteeCache
      slot validatorIndex registryChange).1 = Except.error AssignmentError.notFound ∧
    ∀ s, (CommitteeAssignment slotsPerEpoch prevEpoch nextEpoch RestartCommitteeCache
        slot validatorIndex registryChange).2 s
      = if s ∈ List.range' (StartSlot slotsPerEpoch (slot / slotsPerEpoch)) slotsPerEpoch
        then some (ToCommitteeCache s []) else none := by
  have hcond : ¬ (slot / slotsPerEpoch < prevEpoch ∨ slot / slotsPerEpoch > nextEpoch) := by
    omega
  have hloop := committeeAssignmentLoop_fresh validatorIndex
    (List.range' (StartSlot slotsPerEpoch (slot / slotsPerEpoch)) slotsPerEpoch)
    (List.nodup_range' _ _) RestartCommitteeCache (fun _ _ => rfl)
  constructor
  · simp only [CommitteeAssignment, if_neg hcond]
    exact hloop.1
  · intro s
    simp only [CommitteeAssignment, if_neg hcond]
    exact hloop.2 s

/-- Witness for C9 at slots-per-epoch 2, bounds `[1, 3]`, slot 5 (epoch 2,
covering slots 4 and 5). -/
theorem committeeAssignment_fresh_cache_placeholders_witness :
    (CommitteeAssignment 2 1 3 RestartCommitteeCache 5 7 false).1
      = Except.error AssignmentError.notFound :=
  (committeeAssignment_fresh_cache_placeholders 2 1 3 5 7 false (by decide) (by decide)).1

end Prysm
